import Mathlib

/-!
Verification of the gcfg configuration reader (go-gcfg/gcfg).

This file gives a shallow embedding, in Lean 4, of the parts of the gcfg
package that the audited claims are about:

  * the boolean vocabulary of `bool.go` (`gboolValues` / `UnmarshalText`);
  * the reflective value-setting engine of `set.go` (`fieldFold`, the setter
    chain `typeSetter / textUnmarshalerSetter / kindSetter / scanSetter`,
    `intMode` / `intModeDefault`, and `set` itself (embedded as `gcfgSet`));
  * the `%d`-vs-`%v` scan-verb selection of the earlier setter generation
    (`scanverb` and `primitiveVerbs`);
  * the token-driven structural parser `readInto` (the scanner/token based
    read file);
  * the buffered-reader line assembly of `ReadInto` in `read.go`
    (`bufio.Reader.ReadLine` chunking plus the `lp` accumulation loop);
  * the error classifier `isFatal` and the `extraData` error kind.

Go reflection is modelled by a small universe of destination types (`Ty`) and
values (`Val`) covering the shapes the package documents: strings, bools,
built-in integer kinds, named (user-defined) integer types, `big.Int`,
slices (named and unnamed) and pointers (named and unnamed).  Struct fields
are (name, tag, type, value) records; sections are struct-shaped or
map-shaped bindings.  Character classification and case folding are modelled
on ASCII (the package's own behaviour on ASCII input; full Unicode tables
are out of scope, and no claim depends on non-ASCII folding).
-/

/-! ## String helpers -/

/-- ASCII lower-casing of one character. -/
def asciiLower (c : Char) : Char :=
  if 'A' ≤ c ∧ c ≤ 'Z' then Char.ofNat (c.toNat + 32) else c

/-- ASCII lower-casing of a string. -/
def asciiLowerStr (s : String) : String :=
  String.mk (s.toList.map asciiLower)

/-- Case-insensitive string equality, modelling Go `strings.EqualFold`
(restricted to ASCII simple folding). -/
def equalFold (a b : String) : Bool :=
  asciiLowerStr a == asciiLowerStr b

/-- Substring occurrence test on lists of characters: `needle` occurs
contiguously inside the second argument. -/
def containsSubList (needle : List Char) : List Char → Bool
  | [] => needle.isEmpty
  | c :: t => needle.isPrefixOf (c :: t) || containsSubList needle t

/-- Substring occurrence test on strings: does `hay` contain `needle`
as a contiguous substring. -/
def containsSub (hay needle : String) : Bool :=
  containsSubList needle.toList hay.toList

/-- Go `%q`-style quoting as used by `fmt.Errorf("... %q ...", val)`:
the value surrounded by double quotes, with backslashes and double quotes
escaped.  (Control-character escapes are not needed for the inputs that
appear in this development.) -/
def goQuote (s : String) : String :=
  "\"" ++ String.mk (s.toList.flatMap fun c =>
    if c = '\\' ∨ c = '"' then ['\\', c] else [c]) ++ "\""

/-! ## bool.go: the gbool vocabulary

Embeds `src/bool.go`.  Note the lookup `gboolValues[s]` is on the raw text:
the Go source does not lower-case `s` before the map lookup. -/

/-- The fixed boolean vocabulary of bool.go (`gboolValues`). -/
def gboolValues : List (String × Bool) :=
  [("true", true), ("yes", true), ("on", true), ("1", true),
   ("false", false), ("no", false), ("off", false), ("0", false)]

/-- Embeds `(*gbool).UnmarshalText` from src/bool.go: exact (case-sensitive)
lookup of the raw text in `gboolValues`; unknown literals produce the
`failed to parse ... as bool` error. -/
def unmarshalGbool (text : String) : Except String Bool :=
  match gboolValues.lookup text with
  | some v => .ok v
  | none => .error ("failed to parse `" ++ text ++ "` as bool")

/-- Embeds the constant `defaultValue` (read.go generation; the later
generation names it `implicitValue`, with the same value "true"):
the value string substituted when a variable appears with no `=value`. -/
def defaultValue : String := "true"

/-! ## The reflection universe

Models the slice of Go's reflect types that gcfg's setter inspects:
`Type.Name()` (empty for unnamed composite types), `Type.PkgPath()` (empty
for built-in / unnamed types), `Type.Kind()`, and `Type.Elem()` for slices
and pointers. -/

/-- Built-in integer type variants ([u]int(|8|16|32|64) and uintptr). -/
inductive IntTy where
  | i | i8 | i16 | i32 | i64 | u | u8 | u16 | u32 | u64 | uptr
  deriving DecidableEq, Repr

/-- Reflect kinds distinguished by the setter code. -/
inductive Kind where
  | kString | kBool | kInt (it : IntTy) | kSlice | kPtr | kStruct
  deriving DecidableEq, Repr

/-- Destination field types: the universe over which the setter operates.
`tNamedInt` is a user-defined (named, non-empty package path) type whose
kind is an integer kind, such as `os.FileMode`; `tBigInt` is
`math/big.Int`; slices and pointers carry their (possibly empty) type
name, empty meaning an unnamed type such as `[]string` or `*int`. -/
inductive Ty where
  | tString : Ty
  | tBool : Ty
  | tInt (it : IntTy) : Ty
  | tNamedInt (nm pkg : String) (it : IntTy) : Ty
  | tBigInt : Ty
  | tSlice (nm : String) (elem : Ty) : Ty
  | tPtr (nm : String) (elem : Ty) : Ty
  deriving DecidableEq, Repr

/-- Go `Type.Name()` for the universe (built-in names for built-ins,
the declared name for named types, empty for unnamed composites). -/
def tyName : Ty → String
  | .tString => "string"
  | .tBool => "bool"
  | .tInt it =>
    match it with
    | .i => "int" | .i8 => "int8" | .i16 => "int16" | .i32 => "int32"
    | .i64 => "int64" | .u => "uint" | .u8 => "uint8" | .u16 => "uint16"
    | .u32 => "uint32" | .u64 => "uint64" | .uptr => "uintptr"
  | .tNamedInt nm _ _ => nm
  | .tBigInt => "Int"
  | .tSlice nm _ => nm
  | .tPtr nm _ => nm

/-- Go `Type.PkgPath()` for the universe: empty for built-in and unnamed
types, the declaring package for user-defined named types. -/
def tyPkgPath : Ty → String
  | .tNamedInt _ pkg _ => pkg
  | .tBigInt => "math/big"
  | _ => ""

/-- Go `Type.Kind()` for the universe. -/
def tyKind : Ty → Kind
  | .tString => .kString
  | .tBool => .kBool
  | .tInt it => .kInt it
  | .tNamedInt _ _ it => .kInt it
  | .tBigInt => .kStruct
  | .tSlice _ _ => .kSlice
  | .tPtr _ _ => .kPtr

/-- Go `Type.Elem()` for slice and pointer types (returns the type itself
on other types, on which the setter never calls it). -/
def tyElem : Ty → Ty
  | .tSlice _ e => e
  | .tPtr _ e => e
  | t => t

/-- Runtime values for the universe.  A pointer is `none` when nil;
a slice is its list of element values. -/
inductive Val where
  | vStr (s : String) : Val
  | vBool (b : Bool) : Val
  | vInt (n : Int) : Val
  | vSlice (elems : List Val) : Val
  | vPtr (p : Option Val) : Val

/-- Go zero value of a type in the universe (`reflect.New(t).Elem()`). -/
def zeroVal : Ty → Val
  | .tString => .vStr ""
  | .tBool => .vBool false
  | .tInt _ => .vInt 0
  | .tNamedInt _ _ _ => .vInt 0
  | .tBigInt => .vInt 0
  | .tSlice _ _ => .vSlice []
  | .tPtr _ _ => .vPtr none

/-! ## set.go: tags and field folding -/

/-- A parsed gcfg struct tag (set.go `type tag`). -/
structure Tag where
  ident : String
  intModeStr : String
  deriving DecidableEq, Repr

/-- Splitting at every comma (Go `strings.Split(ts, ",")`). -/
def splitComma : List Char → List (List Char)
  | [] => [[]]
  | ',' :: t => [] :: splitComma t
  | c :: t =>
    match splitComma t with
    | [] => [[c]]
    | h :: r => (c :: h) :: r

/-- Embeds `newTag` from set.go: the text before the first comma is the
identifier override; each later comma-separated element starting with
`int=` (re)sets the integer-mode string. -/
def newTag (ts : String) : Tag :=
  match splitComma ts.toList with
  | [] => ⟨"", ""⟩
  | i :: rest =>
    ⟨String.mk i,
     rest.foldl (fun m tse =>
       if ['i', 'n', 't', '='].isPrefixOf tse then String.mk (tse.drop 4) else m) ""⟩

/-- The folded match name of `fieldFold` in set.go: hyphens become
underscores; a leading letter that is neither upper nor lower case gets an
`X` prefix (never triggered on ASCII input, where every letter is upper or
lower case; modelled with the ASCII classifiers). -/
def foldName (name : String) : String :=
  let pre :=
    match name.toList with
    | [] => ""
    | r0 :: _ => if r0.isAlpha ∧ ¬r0.isLower ∧ ¬r0.isUpper then "X" else ""
  pre ++ String.mk (name.toList.map fun c => if c = '-' then '_' else c)

/-- The per-field match predicate of `fieldFold` (set.go): if the field's
tag carries an identifier override, the override is compared case
insensitively against the raw name, otherwise the folded name is compared
case insensitively against the Go field name.  Every field of the modelled
configs is exported, so the `CanSet` guard is always true. -/
def fieldMatches (name : String) (fieldName fieldTag : String) : Bool :=
  let t := newTag fieldTag
  if t.ident ≠ "" then equalFold t.ident name
  else equalFold (foldName name) fieldName

/-- Embeds `reflect.Type.FieldByNameFunc` restricted to flat structs: the
index of the field satisfying the predicate, provided exactly one does
(multiple matches cancel out and yield no field). -/
def fieldByNameIdx (fields : List (String × String)) (name : String) : Option Nat :=
  let hits := (List.range fields.length).filter fun i =>
    match fields[i]? with
    | some (fn, ft) => fieldMatches name fn ft
    | none => false
  match hits with
  | [i] => some i
  | _ => none

/-! ## set.go: integer modes and the spec-modelled types package -/

/-- An integer parsing mode: which radixes are enabled
(the `types.IntMode` bit set). -/
structure IntMode where
  dec : Bool
  hex : Bool
  oct : Bool
  deriving DecidableEq, Repr

/-- Embeds `intMode` from set.go: build a mode from the tag's mode string
(d/D enables decimal, h/H hex, o/O octal). -/
def intModeOfStr (mode : String) : IntMode :=
  ⟨mode.toList.any (fun c => c = 'd' ∨ c = 'D'),
   mode.toList.any (fun c => c = 'h' ∨ c = 'H'),
   mode.toList.any (fun c => c = 'o' ∨ c = 'O')⟩

/-- The empty mode (Go zero `IntMode`). -/
def IntMode.isZero (m : IntMode) : Bool := ¬m.dec ∧ ¬m.hex ∧ ¬m.oct

/-- Embeds the `typeModes` map from set.go: the ten built-in fixed-width
integer types and `big.Int` map to decimal-or-hex; `uintptr` is deliberately
absent from the map (its comment: use the default mode). -/
def typeModes (t : Ty) : Option IntMode :=
  match t with
  | .tInt it => if it = .uptr then none else some ⟨true, true, false⟩
  | .tBigInt => some ⟨true, true, false⟩
  | _ => none

/-- Embeds `intModeDefault` from set.go: the `typeModes` entry when there
is one, otherwise decimal-hex-octal. -/
def intModeDefault (t : Ty) : IntMode :=
  match typeModes t with
  | some m => m
  | none => ⟨true, true, true⟩

/-- Decimal digits to a natural number, `none` when empty or non-digit. -/
def decDigitsVal : List Char → Option Nat
  | [] => none
  | cs =>
    cs.foldl (fun acc c =>
      match acc with
      | none => none
      | some n => if c.isDigit then some (n * 10 + (c.toNat - 48)) else none)
      (some 0)

/-- Octal digits to a natural number, `none` when empty or out of range. -/
def octDigitsVal : List Char → Option Nat
  | [] => none
  | cs =>
    cs.foldl (fun acc c =>
      match acc with
      | none => none
      | some n => if '0' ≤ c ∧ c ≤ '7' then some (n * 8 + (c.toNat - 48)) else none)
      (some 0)

/-- Hexadecimal digit value. -/
def hexDigitVal (c : Char) : Option Nat :=
  if c.isDigit then some (c.toNat - 48)
  else if 'a' ≤ c ∧ c ≤ 'f' then some (c.toNat - 87)
  else if 'A' ≤ c ∧ c ≤ 'F' then some (c.toNat - 55)
  else none

/-- Hexadecimal digits to a natural number, `none` when empty or invalid. -/
def hexDigitsVal : List Char → Option Nat
  | [] => none
  | cs =>
    cs.foldl (fun acc c =>
      match acc with
      | none => none
      | some n =>
        match hexDigitVal c with
        | some d => some (n * 16 + d)
        | none => none)
      (some 0)

/-- Modelled from the spec: `ParseInt` of the `types` subpackage, which is
part of this repository but absent from the provided sources (set.go calls
`types.ParseInt(d, val, mode)`).  Per the spec: parse with a configurable
radix policy; a `0x`/`0X` prefix is hexadecimal when hex is enabled; a
leading zero is octal when octal is enabled (otherwise zero-padded input is
read as decimal when decimal is enabled, never silently octal); a leading
sign is permitted only for decimal; the entire value must be consumed. -/
def parseIntMode (s : String) (m : IntMode) : Option Int :=
  match s.toList with
  | [] => none
  | c0 :: rest =>
    if c0 = '-' ∨ c0 = '+' then
      if m.dec then
        match decDigitsVal rest with
        | some n => some (if c0 = '-' then -(n : Int) else (n : Int))
        | none => none
      else none
    else
      let cs := c0 :: rest
      match cs with
      | '0' :: 'x' :: ds => if m.hex then (hexDigitsVal ds).map Int.ofNat else none
      | '0' :: 'X' :: ds => if m.hex then (hexDigitsVal ds).map Int.ofNat else none
      | '0' :: d1 :: ds =>
        if m.oct then (octDigitsVal (d1 :: ds)).map Int.ofNat
        else if m.dec then (decDigitsVal cs).map Int.ofNat
        else none
      | _ => if m.dec then (decDigitsVal cs).map Int.ofNat else none

/-! ## Sscanf models

The generations of the setter use `fmt.Sscanf(value, "%v%c", ...)` (and
`"%d%c"`).  These model the documented scanning behaviour of the `fmt`
package for the universe's types: a scan verb (except `%c`) skips leading
spaces; `%d` reads an optionally signed decimal number; `%v` applied to an
integer reads an optionally signed Go literal (0x/0X hex prefix, leading 0
octal, else decimal); `%v` applied to a string reads the next
space-delimited token; the `%c` probe reads the next character verbatim. -/

/-- Leading blanks (spaces and tabs) skipped by scan verbs. -/
def skipBlanks (cs : List Char) : List Char :=
  cs.dropWhile fun c => c = ' ' ∨ c = '\t'

/-- Longest leading run of decimal digits, with the rest. -/
def spanDecDigits (cs : List Char) : List Char × List Char :=
  (cs.takeWhile Char.isDigit, cs.dropWhile Char.isDigit)

/-- Longest leading run of octal digits, with the rest. -/
def spanOctDigits (cs : List Char) : List Char × List Char :=
  (cs.takeWhile (fun c => '0' ≤ c ∧ c ≤ '7'),
   cs.dropWhile (fun c => '0' ≤ c ∧ c ≤ '7'))

/-- Longest leading run of hexadecimal digits, with the rest. -/
def spanHexDigits (cs : List Char) : List Char × List Char :=
  (cs.takeWhile (fun c => (hexDigitVal c).isSome),
   cs.dropWhile (fun c => (hexDigitVal c).isSome))

/-- Scan of an integer with the `%d` verb: skip blanks, optional sign,
one or more decimal digits; returns the value and the unconsumed rest. -/
def scanIntD (s : String) : Option (Int × String) :=
  let cs := skipBlanks s.toList
  let (neg, cs) :=
    match cs with
    | '-' :: t => (true, t)
    | '+' :: t => (false, t)
    | t => (false, t)
  match spanDecDigits cs with
  | ([], _) => none
  | (ds, rest) =>
    (decDigitsVal ds).map fun n =>
      ((if neg then -(n : Int) else (n : Int)), String.mk rest)

/-- Scan of an integer with the `%v` verb (Go-literal bases): skip blanks,
optional sign, then a 0x/0X-prefixed hexadecimal, 0-prefixed octal, or
decimal number; returns the value and the unconsumed rest. -/
def scanIntV (s : String) : Option (Int × String) :=
  let cs := skipBlanks s.toList
  let (neg, cs) :=
    match cs with
    | '-' :: t => (true, t)
    | '+' :: t => (false, t)
    | t => (false, t)
  let signed : Nat × List Char → Option (Int × String) := fun (n, rest) =>
    some ((if neg then -(n : Int) else (n : Int)), String.mk rest)
  match cs with
  | '0' :: 'x' :: t =>
    match spanHexDigits t with
    | ([], _) => none
    | (ds, rest) => (hexDigitsVal ds).bind fun n => signed (n, rest)
  | '0' :: 'X' :: t =>
    match spanHexDigits t with
    | ([], _) => none
    | (ds, rest) => (hexDigitsVal ds).bind fun n => signed (n, rest)
  | '0' :: t =>
    match spanOctDigits ('0' :: t) with
    | ([], _) => none
    | (ds, rest) => (octDigitsVal ds).bind fun n => signed (n, rest)
  | t =>
    match spanDecDigits t with
    | ([], _) => none
    | (ds, rest) => (decDigitsVal ds).bind fun n => signed (n, rest)

/-- Scan of a string with the `%v` verb: the next nonempty space-delimited
token. -/
def scanStrTok (s : String) : Option (String × String) :=
  let cs := skipBlanks s.toList
  match cs.takeWhile (fun c => ¬(c = ' ' ∨ c = '\t')) with
  | [] => none
  | tok => some (String.mk tok, String.mk (cs.dropWhile (fun c => ¬(c = ' ' ∨ c = '\t'))))

/-- The `%v` scan for a destination of type `t` (the generic formatted
scan used by `scanSetter`): integers scan as Go literals, strings as
tokens, bools as the strconv vocabulary token; slice, pointer and other
struct shapes are not scannable and fail. -/
def scanVal (t : Ty) (s : String) : Option (Val × String) :=
  match t with
  | .tInt _ => (scanIntV s).map fun (n, r) => (Val.vInt n, r)
  | .tNamedInt _ _ _ => (scanIntV s).map fun (n, r) => (Val.vInt n, r)
  | .tBigInt => (scanIntV s).map fun (n, r) => (Val.vInt n, r)
  | .tString => (scanStrTok s).map fun (w, r) => (Val.vStr w, r)
  | .tBool =>
    (scanStrTok s).bind fun (w, r) =>
      if w = "true" ∨ w = "t" ∨ w = "1" then some (Val.vBool true, r)
      else if w = "false" ∨ w = "f" ∨ w = "0" then some (Val.vBool false, r)
      else none
  | .tSlice _ _ => none
  | .tPtr _ _ => none

/-! ## set.go: the setter chain -/

/-- Errors produced by the value setter. -/
inductive SetError where
  | unsupportedType : SetError
  | invalidSection (sect : String) : SetError
  | invalidSubsection (sect sub : String) : SetError
  | invalidVariable (sect sub vr : String) : SetError
  | boolFail (val : String) : SetError
  | intFail (val ty : String) : SetError
  | parseFail (val ty : String) : SetError
  | extraChars (val ty : String) : SetError
  | schemaDefect (msg : String) : SetError
  deriving DecidableEq, Repr

/-- Rendering of the setter errors as the Go code formats them
(`fmt.Errorf` patterns from set.go and errors returned by the chain). -/
def setErrMsg : SetError → String
  | .unsupportedType => "unsupported type"
  | .invalidSection sect => "invalid section: section " ++ goQuote sect
  | .invalidSubsection sect sub =>
    "invalid subsection: section " ++ goQuote sect ++ " subsection " ++ goQuote sub
  | .invalidVariable sect sub vr =>
    "invalid variable: section " ++ goQuote sect ++ " subsection " ++ goQuote sub ++
      " variable " ++ goQuote vr
  | .boolFail val => "failed to parse `" ++ val ++ "` as bool"
  | .intFail val ty => "failed to parse " ++ goQuote val ++ " as " ++ ty ++ ": parse error"
  | .parseFail val ty => "failed to parse " ++ goQuote val ++ " as " ++ ty ++ ": parse error"
  | .extraChars val ty => "failed to parse " ++ goQuote val ++ " as " ++ ty ++ ": extra characters"
  | .schemaDefect msg => msg

/-- Embeds `stringSetter` from set.go: succeeds only when the destination
is a pointer to the built-in string type, storing the value verbatim. -/
def stringSetter (t : Ty) (val : String) : Except SetError Val :=
  match t with
  | .tString => .ok (.vStr val)
  | _ => .error .unsupportedType

/-- Modelled from the spec: `ParseBool` of the `types` subpackage, which is
part of this repository but absent from the provided sources (set.go's
`boolSetter` calls `types.ParseBool(val)`).  Per the spec: the raw value is
matched case-insensitively against the fixed vocabulary true/yes/on/1 and
false/no/off/0; anything else is a parse error naming the offending text. -/
def parseBoolSpec (val : String) : Except SetError Bool :=
  match gboolValues.lookup (asciiLowerStr val) with
  | some b => .ok b
  | none => .error (.boolFail val)

/-- Embeds `boolSetter` from set.go over the spec-modelled `types.ParseBool`. -/
def boolSetter (val : String) : Except SetError Val :=
  (parseBoolSpec val).map .vBool

/-- Embeds `intSetter` from set.go: the radix mode comes from the field
tag when nonzero, otherwise from `intModeDefault` of the destination type;
the value is parsed by the (spec-modelled) `types.ParseInt`. -/
def intSetter (t : Ty) (val : String) (tg : Tag) : Except SetError Val :=
  let mode := intModeOfStr tg.intModeStr
  let mode := if mode.isZero then intModeDefault t else mode
  match parseIntMode val mode with
  | some n => .ok (.vInt n)
  | none => .error (.intFail val (tyName t))

/-- Embeds `typeSetter` from set.go: only the `big.Int` entry of
`typeSetters` applies; every other type is unsupported. -/
def typeSetter (t : Ty) (val : String) (tg : Tag) : Except SetError Val :=
  match t with
  | .tBigInt => intSetter t val tg
  | _ => .error .unsupportedType

/-- Embeds `textUnmarshalerSetter` from set.go.  None of the destination
types in the modelled universe implements `encoding.TextUnmarshaler`
(`gbool` is internal to the package and never a destination field type),
so the type assertion always fails with the unsupported-type error. -/
def textUnmarshalerSetter (_t : Ty) (_val : String) : Except SetError Val :=
  .error .unsupportedType

/-- Embeds `kindSetter` from set.go: dispatch on the destination kind via
the `kindSetters` map (string, bool and the integer kinds including
uintptr); other kinds are unsupported. -/
def kindSetter (t : Ty) (val : String) (tg : Tag) : Except SetError Val :=
  match tyKind t with
  | .kString => stringSetter t val
  | .kBool => boolSetter val
  | .kInt _ => intSetter t val tg
  | _ => .error .unsupportedType

/-- Embeds `scanSetter` from set.go: a generic `fmt.Sscanf(val, "%v%c", ...)`
scan; a probe for one extra character decides between success (the scan
consumed the whole value), the extra-characters error, and the parse-failure
error, both naming the raw value and the destination type. -/
def scanSetter (t : Ty) (val : String) : Except SetError Val :=
  match scanVal t val with
  | none => .error (.parseFail val (tyName t))
  | some (w, rest) => if rest = "" then .ok w else .error (.extraChars val (tyName t))

/-- The ordered setter chain of set.go (`setters = [typeSetter,
textUnmarshalerSetter, kindSetter, scanSetter]`): apply each in turn,
moving on exactly when a setter reports the unsupported-type error,
returning any other error immediately. -/
def setterChain (t : Ty) (val : String) (tg : Tag) : Except SetError Val :=
  match typeSetter t val tg with
  | .ok w => .ok w
  | .error e =>
    if e ≠ .unsupportedType then .error e else
    match textUnmarshalerSetter t val with
    | .ok w => .ok w
    | .error e =>
      if e ≠ .unsupportedType then .error e else
      match kindSetter t val tg with
      | .ok w => .ok w
      | .error e =>
        if e ≠ .unsupportedType then .error e else
        match scanSetter t val with
        | .ok w => .ok w
        | .error e => .error e

/-! ## set.go: the destination record graph and set itself -/

/-- A variable binding inside a section struct: Go field name, gcfg tag
string, declared type and current value. -/
structure VarField where
  fname : String
  tag : String
  ty : Ty
  val : Val

/-- A section binding on the config root: a plain nested struct, a
subsection map (`map[string]*struct`, held as a template row of fields
giving the value type, plus `none` for a nil map or the association list
of entries), or any other shape (which set.go treats as a schema defect
and panics on). -/
inductive SectBinding where
  | strct (fields : List VarField) : SectBinding
  | smap (tmpl : List VarField) (entries : Option (List (String × List VarField))) : SectBinding
  | plain (t : Ty) (v : Val) : SectBinding

/-- A first-level field of the config root. -/
structure TopField where
  fname : String
  tag : String
  binding : SectBinding

/-- The destination record: the fields of the config root struct. -/
abbrev Config := List TopField

/-- Names and tags of the root fields, as seen by `fieldFold`. -/
def topNamesTags (cfg : Config) : List (String × String) :=
  cfg.map fun tf => (tf.fname, tf.tag)

/-- Names and tags of a section struct's fields, as seen by `fieldFold`. -/
def varNamesTags (fields : List VarField) : List (String × String) :=
  fields.map fun f => (f.fname, f.tag)

/-- Embeds `fieldFold` at the config root: index of the unique matching
section field. -/
def fieldFoldTop (cfg : Config) (name : String) : Option Nat :=
  fieldByNameIdx (topNamesTags cfg) name

/-- Embeds `fieldFold` inside a section struct: index of the unique
matching variable field. -/
def fieldFoldVar (fields : List VarField) (name : String) : Option Nat :=
  fieldByNameIdx (varNamesTags fields) name

/-- A fresh subsection entry: `reflect.New` of the value struct type, so
every field of the template at its zero value. -/
def zeroFields (tmpl : List VarField) : List VarField :=
  tmpl.map fun f => { f with val := zeroVal f.ty }

/-- Embeds lines 233-276 of set.go, the part of `set` that runs once the
variable binding `vVar` (of declared type `t`, current value `old`, parsed
tag `tg`) has been resolved: multi-value detection (unnamed slice type),
allocation of a fresh element for multi-valued bindings, one level of
dereference through an unnamed pointer type (allocating when nil), the
setter chain on the target address, then the pointer write-back and the
slice append.  Returns the binding's new value. -/
def applyValue (t : Ty) (old : Val) (value : String) (tg : Tag) : Except SetError Val :=
  let isMulti := tyName t = "" ∧ tyKind t = .kSlice
  let vt := if isMulti then tyElem t else t
  let isDeref := tyName vt = "" ∧ tyKind vt = .kPtr
  let st := if isDeref then tyElem vt else vt
  match setterChain st value tg with
  | .error e => .error e
  | .ok w =>
    let newVal := if isDeref then Val.vPtr (some w) else w
    if isMulti then
      match old with
      | .vSlice xs => .ok (.vSlice (xs ++ [newVal]))
      | _ => .error (.schemaDefect "slice value expected")
    else .ok newVal

/-- List update at an index, keeping the rest. -/
def updateAt (l : List VarField) (i : Nat) (v : Val) : List VarField :=
  l.modify (fun f => { f with val := v }) i

/-- Association-list update of the first entry with the given key. -/
def updateEntry (es : List (String × List VarField)) (key : String)
    (fs : List VarField) : List (String × List VarField) :=
  match es with
  | [] => []
  | (k, v) :: t =>
    if k = key then (key, fs) :: t else (k, v) :: updateEntry t key fs

/-- Association-list lookup of the first entry with the given key. -/
def lookupEntry (es : List (String × List VarField)) (key : String) :
    Option (List VarField) :=
  match es with
  | [] => none
  | (k, v) :: t => if k = key then some v else lookupEntry t key

/-- Resolve the variable inside a section's field row and apply the value,
returning the updated row. -/
def setInFields (fields : List VarField) (sect sub name value : String) :
    Except SetError (List VarField) :=
  match fieldFoldVar fields name with
  | none => .error (.invalidVariable sect sub name)
  | some j =>
    match fields[j]? with
    | none => .error (.schemaDefect "index out of range")
    | some f =>
      match applyValue f.ty f.val value (newTag f.tag) with
      | .error e => .error e
      | .ok w => .ok (updateAt fields j w)

/-- The map-shaped part of `set`: make the (nil-allocated) map's entry for
the subsection key - a fresh zero-valued row when absent - and set the
variable inside it, returning the updated entry list. -/
def setInMap (tmpl : List VarField) (es : List (String × List VarField))
    (sect sub name value : String) :
    Except SetError (List (String × List VarField)) :=
  match lookupEntry es sub with
  | some fs =>
    match setInFields fs sect sub name value with
    | .error e => .error e
    | .ok fs' => .ok (updateEntry es sub fs')
  | none =>
    match setInFields (zeroFields tmpl) sect sub name value with
    | .error e => .error e
    | .ok fs' => .ok (es ++ [(sub, fs')])

/-- Embeds `set` from set.go (the current generation): resolve the section
binding by folded name; descend through a subsection map (allocating the
map and the entry as needed, with the subsection name - empty when absent -
as the key) or reject a subsection on a struct-shaped section; resolve the
variable binding; and apply the value.  Go panics (config not a pointer to
struct, ill-shaped map, non-struct non-map section field) appear as
schema-defect errors.  On error the unchanged record is implicit in the
`Except` result; the Go code's partial allocation before a failed coercion
is not observable through a returned error and is not modelled. -/
def gcfgSet (cfg : Config) (sect sub name value : String) : Except SetError Config :=
  match fieldFoldTop cfg sect with
  | none => .error (.invalidSection sect)
  | some i =>
    match cfg[i]? with
    | none => .error (.schemaDefect "index out of range")
    | some tf =>
      match tf.binding with
      | .smap tmpl entries =>
        match setInMap tmpl (entries.getD []) sect sub name value with
        | .error e => .error e
        | .ok es' =>
          .ok (cfg.modify (fun t => { t with binding := .smap tmpl (some es') }) i)
      | .strct fields =>
        if sub ≠ "" then .error (.invalidSubsection sect sub)
        else
          match setInFields fields sect sub name value with
          | .error e => .error e
          | .ok fs' =>
            .ok (cfg.modify (fun t => { t with binding := .strct fs' }) i)
      | .plain _ _ => .error (.schemaDefect "field for section must be a map or a struct")

/-! ## The earlier setter generation: scanverb

Embeds `primitiveVerbs` and `scanverb` from the scan-verb generation of the
setter (the file defining `implicitValue` and `scanverb`): built-in
fixed-width integer kinds scan with `%d` (decimal only), user-defined types
(non-empty package path) and everything else with `%v`. -/

/-- Embeds the `primitiveVerbs` map: the kinds Int..Int64 and Uint..Uint64
map to the verb `d`; `uintptr` (and every other kind) is absent. -/
def primitiveVerbs (k : Kind) : Option Char :=
  match k with
  | .kInt it => if it = .uptr then none else some 'd'
  | _ => none

/-- Embeds `scanverb`: a user-defined type (non-empty package path) scans
with `%v`; otherwise the kind's `primitiveVerbs` entry, defaulting to `%v`. -/
def scanverb (t : Ty) : Char :=
  if tyPkgPath t ≠ "" then 'v'
  else
    match primitiveVerbs (tyKind t) with
    | some verb => verb
    | none => 'v'

/-- The earlier generation's integer coercion: `fmt.Sscanf(value,
"%<scanverb t>%c", ...)` with the extra-character probe, for an
integer-kinded destination of type `t`. -/
def scanFieldInt (t : Ty) (value : String) : Except SetError Int :=
  let scan := if scanverb t = 'd' then scanIntD else scanIntV
  match scan value with
  | none => .error (.parseFail value (tyName t))
  | some (n, rest) =>
    if rest = "" then .ok n else .error (.extraChars value (tyName t))

/-! ## The token-driven structural parser

Embeds `readInto` from the scanner/token read file (the one importing the
package's scanner and token subpackages).  The scanner itself is not among
the sources; the parser is embedded over its token stream, one constructor
per token kind that `readInto` distinguishes. -/

/-- Tokens of the gcfg token subpackage as consumed by `readInto`.
String tokens carry their literal (still quoted when the source was
quoted); identifier tokens carry the identifier text. -/
inductive Tok where
  | eof | eol | comment | lbrack | rbrack | assign
  | ident (lit : String)
  | string (lit : String)
  | illegal (lit : String)
  deriving DecidableEq, Repr

/-- Structural parse errors, one per `errfn` message of `readInto`. -/
inductive PErr where
  | expectedSectionName
  | emptySubsectionName
  | expectedSubsectionNameOrRBracket
  | expectedRBracket
  | expectedEolEofComment
  | expectedSectionHeader
  | expectedAssignOp
  | expectedValue
  | invalidToken
  | setErr (e : SetError)
  deriving DecidableEq, Repr

/-- Embeds `unquote`: strip one leading and one trailing double quote when
the literal starts with one, otherwise return the literal as is. -/
def unquote (s : String) : String :=
  match s.toList with
  | '"' :: t => String.mk t.dropLast
  | _ => s

/-- Embeds the body of `readInto`'s loop over the token stream, carrying
the current section and subsection names.  Each successfully parsed
assignment calls `gcfgSet`; errors abort immediately with the unchanged
record (in the Go code the structural errors shown here are all raised
before the corresponding `gcfgSet` call).  An exhausted token list behaves as
the scanner's end-of-file.  The `Nat` argument is recursion fuel; one unit
is spent per loop iteration and every iteration consumes at least one
token, so any fuel above the token count is enough (see `readIntoToks`). -/
def readIntoLoop (cfg : Config) (sect sectsub : String) : Nat → List Tok → Config × Option PErr
  | 0, _ => (cfg, none)
  | _ + 1, [] => (cfg, none)
  | _ + 1, .eof :: _ => (cfg, none)
  | fuel + 1, .eol :: rest => readIntoLoop cfg sect sectsub fuel rest
  | fuel + 1, .comment :: rest => readIntoLoop cfg sect sectsub fuel rest
  | fuel + 1, .lbrack :: rest =>
    match rest with
    | .ident n :: rest2 =>
      match rest2 with
      | .string lit :: rest3 =>
        let sub := unquote lit
        if sub = "" then (cfg, some .emptySubsectionName)
        else
          match rest3 with
          | .rbrack :: rest4 =>
            match rest4 with
            | [] => (cfg, none)
            | .eof :: _ => (cfg, none)
            | .eol :: rest5 => readIntoLoop cfg n sub fuel rest5
            | .comment :: rest5 => readIntoLoop cfg n sub fuel rest5
            | _ => (cfg, some .expectedEolEofComment)
          | _ => (cfg, some .expectedRBracket)
      | .rbrack :: rest3 =>
        match rest3 with
        | [] => (cfg, none)
        | .eof :: _ => (cfg, none)
        | .eol :: rest4 => readIntoLoop cfg n "" fuel rest4
        | .comment :: rest4 => readIntoLoop cfg n "" fuel rest4
        | _ => (cfg, some .expectedEolEofComment)
      | _ => (cfg, some .expectedSubsectionNameOrRBracket)
    | _ => (cfg, some .expectedSectionName)
  | fuel + 1, .ident n :: rest =>
    if sect = "" then (cfg, some .expectedSectionHeader)
    else
      match rest with
      | [] =>
        match gcfgSet cfg sect sectsub n defaultValue with
        | .error e => (cfg, some (.setErr e))
        | .ok cfg' => (cfg', none)
      | .eof :: _ =>
        match gcfgSet cfg sect sectsub n defaultValue with
        | .error e => (cfg, some (.setErr e))
        | .ok cfg' => (cfg', none)
      | .eol :: rest2 =>
        match gcfgSet cfg sect sectsub n defaultValue with
        | .error e => (cfg, some (.setErr e))
        | .ok cfg' => readIntoLoop cfg' sect sectsub fuel rest2
      | .comment :: rest2 =>
        match gcfgSet cfg sect sectsub n defaultValue with
        | .error e => (cfg, some (.setErr e))
        | .ok cfg' => readIntoLoop cfg' sect sectsub fuel rest2
      | .assign :: rest2 =>
        match rest2 with
        | .string lit :: rest3 =>
          let v := unquote lit
          match rest3 with
          | [] =>
            match gcfgSet cfg sect sectsub n v with
            | .error e => (cfg, some (.setErr e))
            | .ok cfg' => (cfg', none)
          | .eof :: _ =>
            match gcfgSet cfg sect sectsub n v with
            | .error e => (cfg, some (.setErr e))
            | .ok cfg' => (cfg', none)
          | .eol :: rest4 =>
            match gcfgSet cfg sect sectsub n v with
            | .error e => (cfg, some (.setErr e))
            | .ok cfg' => readIntoLoop cfg' sect sectsub fuel rest4
          | .comment :: rest4 =>
            match gcfgSet cfg sect sectsub n v with
            | .error e => (cfg, some (.setErr e))
            | .ok cfg' => readIntoLoop cfg' sect sectsub fuel rest4
          | _ => (cfg, some .expectedEolEofComment)
        | _ => (cfg, some .expectedValue)
      | _ => (cfg, some .expectedAssignOp)
  | _ + 1, .rbrack :: _ => (cfg, some .invalidToken)
  | _ + 1, .assign :: _ => (cfg, some .invalidToken)
  | _ + 1, .string _ :: _ => (cfg, some .invalidToken)
  | _ + 1, .illegal _ :: _ => (cfg, some .invalidToken)

/-- Embeds `readInto` over a token stream: the loop starts outside any
section, with fuel amply covering the stream (one unit per iteration,
each of which consumes at least one token). -/
def readIntoToks (cfg : Config) (toks : List Tok) : Config × Option PErr :=
  readIntoLoop cfg "" "" (toks.length + 1) toks

/-! ## read.go: buffered line reading

Models `bufio.Reader.ReadLine` over a reader with buffer size `b` and the
line-assembly loop of `ReadInto` in read.go (lines 64-81): a too-long line
comes back in prefix chunks (`pre` set) that the loop accumulates in `lp`;
a terminated or final line comes back whole with `pre` unset.  The model
returns the sequence of logical lines the loop hands to the line
processing, which is what the rest of `ReadInto` consumes. -/

/-- Index of the first newline, if any. -/
def findNl (cs : List Char) : Option Nat :=
  cs.findIdx? (· = '\n')

/-- One `bufio.Reader.ReadLine` call with buffer size `b` on the remaining
input: returns (line, isPrefix, atEof, rest).  A newline within the buffer
yields the line up to it (stripping a final carriage return); a full buffer
without one yields a prefix chunk (un-reading a trailing carriage return
that might straddle the buffer); end of input with data yields the data;
end of input without data reports end-of-file. -/
def readLineGo (b : Nat) (input : List Char) : List Char × Bool × Bool × List Char :=
  match input with
  | [] => ([], false, true, [])
  | _ =>
    match findNl (input.take b) with
    | some i =>
      let line := input.take i
      let line := if line.getLast? = some '\r' then line.dropLast else line
      (line, false, false, input.drop (i + 1))
    | none =>
      if input.length ≤ b then (input, false, false, [])
      else
        let chunk := input.take b
        if chunk.getLast? = some '\r' then
          (chunk.dropLast, true, false, '\r' :: input.drop b)
        else
          (chunk, true, false, input.drop b)

/-- The line-assembly loop of read.go's `ReadInto` (lines 64-81), fuelled
by an upper bound on the number of reads: prefix chunks are accumulated in
`lp`; a non-prefix read `l` is merged with `lp` only when `l` is non-empty
(the Go condition `len(l) > 0`, which also resets `lp`); every processed
logical line is emitted in order, and the loop stops after the end-of-file
read. -/
def assembleLines (fuel b : Nat) (input lp : List Char) : List (List Char) :=
  match fuel with
  | 0 => []
  | fuel + 1 =>
    let (l, pre, atEof, rest) := readLineGo b input
    if pre then assembleLines fuel b rest (lp ++ l)
    else
      let merged := if l.length > 0 then lp ++ l else l
      let lp' := if l.length > 0 then [] else lp
      if atEof then [merged]
      else merged :: assembleLines fuel b rest lp'

/-- The logical lines `ReadInto` processes for a given buffer size
(one `String` per loop iteration, in order). -/
def logicalLines (b : Nat) (s : String) : List String :=
  (assembleLines (s.toList.length + 1) b s.toList []).map String.mk

/-! ## Error classification

Embeds `isFatal` and `extraData` (errors.go and the warnings-based read
file): the one non-fatal error kind is the extra-data error, carrying the
section and optional subsection and variable that had no destination. -/

/-- The full error universe of the embedding: the extra-data kind of
errors.go plus every other error the reader and setter produce
(structural, lexical - surfaced as invalid-token - and coercion errors). -/
inductive GError where
  | extraData (sect : String) (sub vr : Option String) : GError
  | readErr (e : PErr) : GError
  | coerceErr (e : SetError) : GError
  deriving DecidableEq, Repr

/-- Embeds `Error()` of `extraData` and the messages of the other error
kinds. -/
def gErrMsg : GError → String
  | .extraData sect sub vr =>
    "can't store data at section \"" ++ sect ++ "\"" ++
      (match sub with
       | some s => ", subsection \"" ++ s ++ "\""
       | none => "") ++
      (match vr with
       | some v => ", variable \"" ++ v ++ "\""
       | none => "")
  | .readErr _ => "read error"
  | .coerceErr e => setErrMsg e

/-- Embeds `isFatal`: the type assertion `err.(extraData)` decides the
classification; exactly the extra-data kind is non-fatal. -/
def isFatal (e : GError) : Bool :=
  match e with
  | .extraData _ _ _ => false
  | _ => true

/-! ## Concrete destination records and statement helpers -/

/-- A multi-valued fixture: one section `M1` whose single field `Multi`
has the unnamed slice type over an arbitrary element type (the shape of
the multivalue tests' `cMultiS1`). -/
def cfgMulti (e : Ty) (xs : List Val) : Config :=
  [⟨"M1", "", .strct [⟨"Multi", "", .tSlice "" e, .vSlice xs⟩]⟩]

/-- The type the setter chain targets for one element of a multi-valued
binding (after the one level of unnamed-pointer dereference `gcfgSet`
performs). -/
def multiElemTarget (e : Ty) : Ty :=
  if tyName e = "" ∧ tyKind e = .kPtr then tyElem e else e

/-- The element value `gcfgSet` appends for a coerced value `w` (wrapped back
into a fresh pointer when the element type is an unnamed pointer). -/
def mkElem (e : Ty) (w : Val) : Val :=
  if tyName e = "" ∧ tyKind e = .kPtr then .vPtr (some w) else w

/-- Iterated assignment: apply `gcfgSet` once per value, in order,
failing fast. -/
def setMany (cfg : Config) (sect sub name : String) : List String → Except SetError Config
  | [] => .ok cfg
  | v :: vs =>
    match gcfgSet cfg sect sub name v with
    | .error e => .error e
    | .ok c => setMany c sect sub name vs

/-- A single-valued fixture: one section `S` whose single field `F` has an
arbitrary type and current value. -/
def cfgSingle (t : Ty) (x : Val) : Config :=
  [⟨"S", "", .strct [⟨"F", "", t, x⟩]⟩]

/-- The field row of the subsection fixture (`{ Name string }`). -/
def sub1Tmpl : List VarField := [⟨"Name", "", .tString, .vStr ""⟩]

/-- A subsection-map fixture with a nil map (the shape of the tests'
`cSubs`). -/
def cfgSubs : Config := [⟨"Sub", "", .smap sub1Tmpl none⟩]

/-- The subsection fixture after storing `name=value` in the section with
no subsection: one entry under the empty-string key. -/
def cfgSubsDone : Config :=
  [⟨"Sub", "", .smap sub1Tmpl (some [("", [⟨"Name", "", .tString, .vStr "value"⟩])])⟩]


/-- The frame property of one resolved section binding for claim C10:
for a struct-shaped section, a variable index is resolved and every other
row - and the name, tag and type of the resolved row - is unchanged; for a
map-shaped section, the template is unchanged, the map exists afterwards,
entries under every other key are unchanged, and the entry under the
resolved key differs from its prior value (its fresh zero row when it was
absent) in at most the resolved variable's value.  Any other combination
of shapes cannot result from a successful `gcfgSet`. -/
def bindingFrame (b b' : SectBinding) (u n : String) : Prop :=
  match b, b' with
  | .strct fs, .strct fs' =>
    ∃ k, fieldFoldVar fs n = some k ∧ fs'.length = fs.length ∧
      (∀ l, l ≠ k → fs'[l]? = fs[l]?) ∧
      (∀ f f', fs[k]? = some f → fs'[k]? = some f' →
        f'.fname = f.fname ∧ f'.tag = f.tag ∧ f'.ty = f.ty)
  | .smap tmpl es, .smap tmpl' es' =>
    tmpl' = tmpl ∧
    ∃ es₂, es' = some es₂ ∧
      (∀ key, key ≠ u → lookupEntry es₂ key = lookupEntry (es.getD []) key) ∧
      ∃ row, lookupEntry es₂ u = some row ∧
        (let base := (lookupEntry (es.getD []) u).getD (zeroFields tmpl)
         ∃ k, fieldFoldVar base n = some k ∧ row.length = base.length ∧
           (∀ l, l ≠ k → row[l]? = base[l]?) ∧
           (∀ f f', base[k]? = some f → row[k]? = some f' →
             f'.fname = f.fname ∧ f'.tag = f.tag ∧ f'.ty = f.ty))
  | _, _ => False

/-! ## Claims -/

/-- Claim C1.  The boolean vocabulary of bool.go maps the lower-case
spellings true/yes/on/1 to true and false/no/off/0 to false and rejects
other literals with the `failed to parse` error; but the cited
`UnmarshalText` looks the raw text up without case folding, so the
upper-case spelling `TRUE` - which the package documentation ("ignoring
case") and the claim say must coerce to true - is rejected.  This theorem
evaluates the code at the failing input alongside the working vocabulary. -/
theorem gbool_vocabulary_and_case_bug :
    unmarshalGbool "true" = .ok true ∧ unmarshalGbool "yes" = .ok true ∧
    unmarshalGbool "on" = .ok true ∧ unmarshalGbool "1" = .ok true ∧
    unmarshalGbool "false" = .ok false ∧ unmarshalGbool "no" = .ok false ∧
    unmarshalGbool "off" = .ok false ∧ unmarshalGbool "0" = .ok false ∧
    unmarshalGbool "maybe" = .error "failed to parse `maybe` as bool" ∧
    unmarshalGbool "TRUE" = .error "failed to parse `TRUE` as bool" ∧
    defaultValue = "true" :=
  ⟨rfl, rfl, rfl, rfl, rfl, rfl, rfl, rfl, rfl, rfl, rfl⟩

/-- Claim C2.  Radix policy for integer coercion, shown on both setter
generations: the scan-verb generation gives built-in fixed-width integer
kinds the `%d` (decimal-only) verb, so `"010"` parses as decimal 10, and
gives named user types the `%v` verb, so `"0777"` parses as octal 511; the
current generation's `intModeDefault` enables decimal-and-hex (no octal)
for every built-in fixed-width kind and decimal-hex-octal for named types,
with the same two outcomes through `intSetter`. -/
theorem int_radix_policy (it : IntTy) (hit : it ≠ IntTy.uptr) :
    scanverb (Ty.tInt it) = 'd' ∧
    scanFieldInt (Ty.tInt .i) "010" = .ok 10 ∧
    scanverb (Ty.tNamedInt "FileMode" "os" .u32) = 'v' ∧
    scanFieldInt (Ty.tNamedInt "FileMode" "os" .u32) "0777" = .ok 511 ∧
    intModeDefault (Ty.tInt it) = ⟨true, true, false⟩ ∧
    setterChain (Ty.tInt .i) "010" ⟨"", ""⟩ = .ok (.vInt 10) ∧
    intModeDefault (Ty.tNamedInt "FileMode" "os" .u32) = ⟨true, true, true⟩ ∧
    setterChain (Ty.tNamedInt "FileMode" "os" .u32) "0777" ⟨"", ""⟩ = .ok (.vInt 511) := by
  refine ⟨?_, rfl, rfl, rfl, ?_, rfl, rfl, rfl⟩
  · cases it <;> simp_all [scanverb, tyPkgPath, tyKind, primitiveVerbs]
  · cases it <;> simp_all [intModeDefault, typeModes]

/-- Witness for claim C2's theorem at the plain `int` kind. -/
theorem int_radix_policy_witness :
    scanverb (Ty.tInt .i) = 'd' ∧
    scanFieldInt (Ty.tInt .i) "010" = .ok 10 ∧
    scanverb (Ty.tNamedInt "FileMode" "os" .u32) = 'v' ∧
    scanFieldInt (Ty.tNamedInt "FileMode" "os" .u32) "0777" = .ok 511 ∧
    intModeDefault (Ty.tInt .i) = ⟨true, true, false⟩ ∧
    setterChain (Ty.tInt .i) "010" ⟨"", ""⟩ = .ok (.vInt 10) ∧
    intModeDefault (Ty.tNamedInt "FileMode" "os" .u32) = ⟨true, true, true⟩ ∧
    setterChain (Ty.tNamedInt "FileMode" "os" .u32) "0777" ⟨"", ""⟩ = .ok (.vInt 511) :=
  int_radix_policy IntTy.i (by decide)

/-- Claim C7.  The classifier `isFatal` returns false exactly on the
extra-data (no destination) error kind and true on every other error,
structural, lexical and coercion errors included. -/
theorem isFatal_false_iff_extraData :
    ∀ e : GError, isFatal e = false ↔ ∃ s su vr, e = GError.extraData s su vr := by
  intro e
  cases e <;> simp [isFatal]

/-- Claim C9.  Evaluation of the read.go line-assembly loop at a buffer
size of 4: the physical line of eight characters (twice the buffer) ends
exactly at a buffer boundary, so the final `ReadLine` fragment is empty,
the accumulated prefix is neither merged nor cleared, the line is handed
on as a blank, and its content leaks into the following logical line; a
seven-character line is assembled correctly.  The claim that any over-long
line is processed as one logical line fails at buffer-multiple lengths. -/
theorem long_line_buffer_multiple_bug :
    logicalLines 4 "aaaaaaaa\nx=y" = ["", "aaaaaaaax=y", ""] ∧
    ("aaaaaaaa" ∈ logicalLines 4 "aaaaaaaa\nx=y" → False) ∧
    logicalLines 4 "aaaaaaa\nx=y" = ["aaaaaaa", "x=y", ""] := by
  refine ⟨by decide, by decide, by decide⟩

/-- Claim C5.  An assignment (identifier token) reached before any section
header, after any run of end-of-line and comment tokens, makes the parse
return the structural expected-section-header error, for every destination
record, and the destination record is returned unchanged (the error is
raised before any call into the setter). -/
theorem assignment_before_header_rejected
    (cfg : Config) (pre : List Tok) (n : String) (rest : List Tok)
    (h : ∀ t ∈ pre, t = Tok.eol ∨ t = Tok.comment) :
    readIntoToks cfg (pre ++ Tok.ident n :: rest) =
      (cfg, some PErr.expectedSectionHeader) ∧
    isFatal (GError.readErr PErr.expectedSectionHeader) = true := by
  refine ⟨?_, rfl⟩
  unfold readIntoToks
  induction pre with
  | nil => rfl
  | cons t ts ih =>
    have ht := h t (List.mem_cons_self t ts)
    have hts : ∀ x ∈ ts, x = Tok.eol ∨ x = Tok.comment := fun x hx =>
      h x (List.mem_cons_of_mem t hx)
    rcases ht with ht | ht <;> subst ht <;>
      simpa [readIntoLoop] using ih hts

/-- Witness for claim C5's theorem: one blank line, then `x` with no
section header, on the empty destination record. -/
theorem assignment_before_header_rejected_witness :
    readIntoToks [] [Tok.eol, Tok.ident "x"] =
      ([], some PErr.expectedSectionHeader) ∧
    isFatal (GError.readErr PErr.expectedSectionHeader) = true :=
  assignment_before_header_rejected [] [Tok.eol] "x" [] (by simp)

/-- Claim C8.  A quoted-subsection header whose quoted string decodes to
the empty subsection name (the input form `[sec ""]`, whose string token
literal is two quote characters) always produces the empty-subsection-name
error, for every destination record, section name and continuation; while
the plain form `[sub]` is accepted and a following assignment is stored
under the empty-string subsection key of the map-shaped binding. -/
theorem empty_quoted_subsection_rejected :
    (∀ (cfg : Config) (s : String) (toks : List Tok),
       readIntoToks cfg (Tok.lbrack :: Tok.ident s :: Tok.string "\"\"" :: toks) =
         (cfg, some PErr.emptySubsectionName)) ∧
    readIntoToks cfgSubs [Tok.lbrack, Tok.ident "sub", Tok.rbrack, Tok.eol,
        Tok.ident "name", Tok.assign, Tok.string "value", Tok.eof] =
      (cfgSubsDone, none) := by
  constructor
  · intro cfg s toks
    rfl
  · rfl

/-- For a single-valued binding (not an unnamed slice type), the value
`applyValue` produces does not depend on the binding's prior value: the
setter chain reads only the raw value string, and the pointer write-back
produces the same pointer contents whether or not the pointer was nil. -/
theorem applyValue_single_indep (t : Ty) (o₁ o₂ : Val) (v : String) (tg : Tag)
    (h : ¬(tyName t = "" ∧ tyKind t = Kind.kSlice)) :
    applyValue t o₁ v tg = applyValue t o₂ v tg := by
  unfold applyValue
  simp only [if_neg h]

/-- Evaluation of `gcfgSet` on the single-field fixture: resolution finds
section `S` and field `F`, and the outcome is `applyValue` on the field,
rewrapped. -/
theorem set_cfgSingle (t : Ty) (x : Val) (v : String) :
    gcfgSet (cfgSingle t x) "s" "" "f" v =
      match applyValue t x v (newTag "") with
      | .error e => .error e
      | .ok w => .ok (cfgSingle t w) := by
  have h1 : fieldFoldTop [⟨"S", "", SectBinding.strct [⟨"F", "", t, x⟩]⟩] "s" = some 0 := rfl
  have h2 : fieldFoldVar [⟨"F", "", t, x⟩] "f" = some 0 := rfl
  simp only [gcfgSet, cfgSingle, setInFields, h1, h2, List.getElem?_cons_zero, updateAt, List.modify]
  cases applyValue t x v (newTag "") <;> rfl

/-- Claim C4.  For a single-valued binding (any type that is not an
unnamed slice), two successive successful assignments to the same variable
leave the field exactly as a single assignment of the second value would:
re-assignment overwrites and never accumulates. -/
theorem single_valued_overwrite (t : Ty) (x : Val) (v₁ v₂ : String) (c₁ c₂ : Config)
    (hm : ¬(tyName t = "" ∧ tyKind t = Kind.kSlice))
    (h1 : gcfgSet (cfgSingle t x) "s" "" "f" v₁ = .ok c₁)
    (h2 : gcfgSet c₁ "s" "" "f" v₂ = .ok c₂) :
    gcfgSet (cfgSingle t x) "s" "" "f" v₂ = .ok c₂ := by
  rw [set_cfgSingle] at h1
  rcases happ1 : applyValue t x v₁ (newTag "") with e | w₁
  · rw [happ1] at h1; exact absurd h1 (by simp)
  · rw [happ1] at h1
    simp only at h1
    have hc₁ : c₁ = cfgSingle t w₁ := by
      cases h1; rfl
    subst hc₁
    rw [set_cfgSingle] at h2 ⊢
    rw [applyValue_single_indep t x w₁ v₂ (newTag "") hm]
    exact h2

/-- Witness for claim C4's theorem: a string field assigned "a" then "b"
holds "b", the result of assigning "b" alone. -/
theorem single_valued_overwrite_witness :
    gcfgSet (cfgSingle Ty.tString (Val.vStr "")) "s" "" "f" "b" =
      .ok (cfgSingle Ty.tString (Val.vStr "b")) :=
  single_valued_overwrite Ty.tString (Val.vStr "") "a" "b"
    (cfgSingle Ty.tString (Val.vStr "a")) (cfgSingle Ty.tString (Val.vStr "b"))
    (by simp [tyName]) rfl rfl

/-- Evaluation of `applyValue` on an unnamed-slice binding: the setter
chain runs on the element target type and the coerced element is appended
to the existing sequence. -/
theorem applyValue_unnamed_slice (e : Ty) (xs : List Val) (v : String) (tg : Tag) :
    applyValue (Ty.tSlice "" e) (Val.vSlice xs) v tg =
      match setterChain (multiElemTarget e) v tg with
      | .error err => .error err
      | .ok w => .ok (Val.vSlice (xs ++ [mkElem e w])) := by
  unfold applyValue multiElemTarget mkElem
  simp only [tyName, tyKind, tyElem]
  by_cases hd : tyName e = "" ∧ tyKind e = Kind.kPtr <;> simp [hd]

/-- A named slice type never satisfies the multi-value test, so the value
lands in the setter chain, where no setter accepts a slice shape: the
final generic scan fails with the parse error naming the raw value and the
named slice type. -/
theorem applyValue_named_slice (nm : String) (hnm : nm ≠ "") (e : Ty) (o : Val)
    (v : String) (tg : Tag) :
    applyValue (Ty.tSlice nm e) o v tg = .error (.parseFail v nm) := by
  unfold applyValue
  simp [tyName, tyKind, hnm, setterChain, typeSetter, textUnmarshalerSetter,
    kindSetter, scanSetter, scanVal]

/-- Evaluation of `gcfgSet` on the multi-value fixture: resolution finds
section `M1` and variable `Multi`, and one element produced by the setter
chain is appended. -/
theorem set_cfgMulti (e : Ty) (xs : List Val) (v : String) :
    gcfgSet (cfgMulti e xs) "m1" "" "multi" v =
      match setterChain (multiElemTarget e) v (newTag "") with
      | .error err => .error err
      | .ok w => .ok (cfgMulti e (xs ++ [mkElem e w])) := by
  have h1 : fieldFoldTop
      [⟨"M1", "", SectBinding.strct [⟨"Multi", "", Ty.tSlice "" e, Val.vSlice xs⟩]⟩]
      "m1" = some 0 := rfl
  have h2 : fieldFoldVar [⟨"Multi", "", Ty.tSlice "" e, Val.vSlice xs⟩] "multi" = some 0 := rfl
  simp only [gcfgSet, cfgMulti, setInFields, h1, h2, List.getElem?_cons_zero, updateAt,
    List.modify, applyValue_unnamed_slice]
  cases setterChain (multiElemTarget e) v (newTag "") <;> rfl

/-- Iterated assignments on the multi-value fixture append one coerced
element each, in order. -/
theorem setMany_cfgMulti (e : Ty) (vals : List String) (ws : List Val)
    (h : List.Forall₂ (fun v w => setterChain (multiElemTarget e) v (newTag "") = .ok w) vals ws) :
    ∀ xs, setMany (cfgMulti e xs) "m1" "" "multi" vals =
      .ok (cfgMulti e (xs ++ ws.map (mkElem e))) := by
  induction h with
  | nil => intro xs; simp [setMany]
  | cons hv _hrest ih =>
    intro xs
    simp only [setMany, set_cfgMulti, hv]
    rw [ih]
    simp

/-- Claim C3.  A binding is treated as multi-valued exactly when its type
is an unnamed slice type: the unnamed slice satisfies the source's
multi-value test and a named slice never does; on an unnamed-slice binding,
n successful assignments starting from the empty sequence produce exactly
the n coerced elements in assignment order (no deduplication, no
reordering); on a named-slice binding nothing is appended - the value
falls through to the setter chain and is rejected. -/
theorem multi_valued_iff_unnamed_slice (e : Ty) (vals : List String) (ws : List Val)
    (h : List.Forall₂ (fun v w => setterChain (multiElemTarget e) v (newTag "") = .ok w) vals ws) :
    (∀ t : Ty, (tyName t = "" ∧ tyKind t = Kind.kSlice) ↔ ∃ e₀, t = Ty.tSlice "" e₀) ∧
    (∀ nm : String, nm ≠ "" →
      ¬(tyName (Ty.tSlice nm e) = "" ∧ tyKind (Ty.tSlice nm e) = Kind.kSlice)) ∧
    setMany (cfgMulti e []) "m1" "" "multi" vals =
      .ok (cfgMulti e (ws.map (mkElem e))) ∧
    (ws.map (mkElem e)).length = vals.length ∧
    (∀ nm : String, nm ≠ "" → ∀ (o : Val) (v : String) (tg : Tag),
      applyValue (Ty.tSlice nm e) o v tg = .error (.parseFail v nm)) := by
  refine ⟨?_, ?_, ?_, ?_, ?_⟩
  · intro t
    cases t with
    | tInt it => cases it <;> simp [tyName, tyKind]
    | tSlice nm e₀ =>
      constructor
      · rintro ⟨h1, -⟩
        exact ⟨e₀, by simp_all [tyName]⟩
      · rintro ⟨e₁, he⟩
        cases he
        exact ⟨rfl, rfl⟩
    | _ => simp [tyName, tyKind]
  · intro nm hnm
    simp [tyName, hnm]
  · simpa using setMany_cfgMulti e vals ws h []
  · simpa using h.length_eq.symm
  · intro nm hnm o v tg
    exact applyValue_named_slice nm hnm e o v tg

/-- Witness for claim C3's theorem: two string assignments "value1",
"value2" to the unnamed-slice binding produce the two-element sequence in
that order. -/
theorem multi_valued_iff_unnamed_slice_witness :
    setMany (cfgMulti Ty.tString []) "m1" "" "multi" ["value1", "value2"] =
      .ok (cfgMulti Ty.tString [Val.vStr "value1", Val.vStr "value2"]) := by
  have h := multi_valued_iff_unnamed_slice Ty.tString ["value1", "value2"]
    [Val.vStr "value1", Val.vStr "value2"]
    (by constructor
        · rfl
        · constructor
          · rfl
          · constructor)
  simpa [mkElem, tyName, tyKind] using h.2.2.1

/-- The executable substring test agrees with list-infix containment. -/
theorem containsSubList_iff (n : List Char) :
    ∀ h : List Char, containsSubList n h = true ↔ n <:+: h := by
  intro h
  induction h with
  | nil => simp [containsSubList, List.isEmpty_iff]
  | cons c t ih =>
    simp [containsSubList, List.infix_cons_iff, List.isPrefixOf_iff_prefix, ih]

/-- String conversion distributes over append (definitional). -/
theorem toListAppend (a b : String) : (a ++ b).toList = a.toList ++ b.toList := rfl

/-- Containment follows from list-level infix occurrence. -/
theorem containsSub_of_infix {h n : String} (hx : n.toList <:+: h.toList) :
    containsSub h n = true := by
  unfold containsSub
  rw [containsSubList_iff]
  exact hx

/-- Claim C6.  The generic formatted-scan strategy accepts a value exactly
when the scan consumes the whole string; a scan that leaves a nonempty
rest yields the extra-characters error; every error this strategy returns
carries the quoted raw value and the destination type name in its message.
The regression inputs of the parse-error test (an int-typed destination
fed "X", "" and "1A") all fail, with messages that name the raw value and
the type and contain no runtime-reflection jargon (the substring
"reflect"). -/
theorem scan_full_consumption_and_messages (t : Ty) (val : String) :
    ((∃ w, scanSetter t val = .ok w) ↔ (∃ w, scanVal t val = some (w, ""))) ∧
    (∀ w rest, scanVal t val = some (w, rest) → rest ≠ "" →
      scanSetter t val = .error (SetError.extraChars val (tyName t))) ∧
    (∀ e, scanSetter t val = .error e →
      containsSub (setErrMsg e) (goQuote val) = true ∧
      containsSub (setErrMsg e) (tyName t) = true) ∧
    (scanSetter (Ty.tInt .i) "X" = .error (SetError.parseFail "X" "int") ∧
      scanSetter (Ty.tInt .i) "" = .error (SetError.parseFail "" "int") ∧
      scanSetter (Ty.tInt .i) "1A" = .error (SetError.extraChars "1A" "int") ∧
      ∀ msg ∈ [setErrMsg (SetError.parseFail "X" "int"),
               setErrMsg (SetError.parseFail "" "int"),
               setErrMsg (SetError.extraChars "1A" "int")],
        containsSub msg "reflect" = false ∧ containsSub msg "int" = true) := by
  refine ⟨?_, ?_, ?_, rfl, rfl, rfl, by decide⟩
  · unfold scanSetter
    cases hs : scanVal t val with
    | none => simp
    | some p =>
      obtain ⟨w, rest⟩ := p
      by_cases hr : rest = "" <;> simp [hr]
  · intro w rest hs hr
    unfold scanSetter
    rw [hs]
    simp [hr]
  · intro e he
    unfold scanSetter at he
    have he' : e = .parseFail val (tyName t) ∨ e = .extraChars val (tyName t) := by
      cases hs : scanVal t val with
      | none =>
        rw [hs] at he
        refine Or.inl ?_
        cases he
        rfl
      | some p =>
        obtain ⟨w, rest⟩ := p
        rw [hs] at he
        by_cases hr : rest = ""
        · simp [hr] at he
        · refine Or.inr ?_
          simp only [if_neg hr] at he
          cases he
          rfl
    have key : ∀ sfx : String,
        containsSub ("failed to parse " ++ goQuote val ++ " as " ++ tyName t ++ sfx)
          (goQuote val) = true ∧
        containsSub ("failed to parse " ++ goQuote val ++ " as " ++ tyName t ++ sfx)
          (tyName t) = true := by
      intro sfx
      constructor
      · exact containsSub_of_infix
          ⟨"failed to parse ".toList, (" as " ++ tyName t ++ sfx).toList,
            by simp [toListAppend, List.append_assoc]⟩
      · exact containsSub_of_infix
          ⟨("failed to parse " ++ goQuote val ++ " as ").toList, sfx.toList,
            by simp [toListAppend, List.append_assoc]⟩
    rcases he' with he' | he' <;> subst he' <;>
      simpa [setErrMsg] using key _

/-- Witness for claim C6's theorem: the trailing-character input "1A" on
an int destination takes the extra-characters branch. -/
theorem scan_full_consumption_witness :
    scanSetter (Ty.tInt .i) "1A" = .error (SetError.extraChars "1A" "int") :=
  (scan_full_consumption_and_messages (Ty.tInt .i) "1A").2.1 (Val.vInt 1) "A" rfl (by decide)

/-- Frame property of `setInFields`: success resolves a unique variable
index and changes at most that row's value, preserving the row's name,
tag and type and every other row. -/
theorem setInFields_frame (fs : List VarField) (s u n v : String) (fs' : List VarField)
    (h : setInFields fs s u n v = .ok fs') :
    ∃ k, fieldFoldVar fs n = some k ∧ fs'.length = fs.length ∧
      (∀ l, l ≠ k → fs'[l]? = fs[l]?) ∧
      (∀ f f', fs[k]? = some f → fs'[k]? = some f' →
        f'.fname = f.fname ∧ f'.tag = f.tag ∧ f'.ty = f.ty) := by
  unfold setInFields at h
  split at h
  next => cases h
  next k hk =>
    split at h
    next => cases h
    next f hg =>
      split at h
      next e ha => cases h
      next w ha =>
        cases h
        refine ⟨k, hk, ?_, ?_, ?_⟩
        · unfold updateAt
          exact List.length_modify ..
        · intro l hl
          unfold updateAt
          exact List.getElem?_modify_ne _ fs hl.symm
        · intro f₀ f₀' hf₀ hf₀'
          unfold updateAt at hf₀'
          rw [List.getElem?_modify_eq, hf₀] at hf₀'
          cases hf₀'
          exact ⟨rfl, rfl, rfl⟩

/-- Updating an association list under one key leaves lookups of every
other key unchanged. -/
theorem lookupEntry_updateEntry_ne (es : List (String × List VarField))
    (key k' : String) (fs : List VarField) (h : k' ≠ key) :
    lookupEntry (updateEntry es key fs) k' = lookupEntry es k' := by
  induction es with
  | nil => rfl
  | cons p t ih =>
    obtain ⟨k, vfs⟩ := p
    by_cases hk : k = key
    · subst hk
      simp [updateEntry, lookupEntry, Ne.symm h, h]
    · simp [updateEntry, lookupEntry, hk, ih]

/-- Updating an association list under a present key makes that key's
lookup return the new row. -/
theorem lookupEntry_updateEntry_eq (es : List (String × List VarField))
    (key : String) (fs₀ fs : List VarField) (h : lookupEntry es key = some fs₀) :
    lookupEntry (updateEntry es key fs) key = some fs := by
  induction es with
  | nil => cases h
  | cons p t ih =>
    obtain ⟨k, vfs⟩ := p
    by_cases hk : k = key
    · subst hk
      simp [updateEntry, lookupEntry]
    · simp only [lookupEntry, if_neg hk] at h
      simp [updateEntry, lookupEntry, hk, ih h]

/-- Appending a fresh entry leaves lookups of every other key unchanged. -/
theorem lookupEntry_append_ne (es : List (String × List VarField))
    (u k' : String) (fs : List VarField) (h : k' ≠ u) :
    lookupEntry (es ++ [(u, fs)]) k' = lookupEntry es k' := by
  induction es with
  | nil => simp [lookupEntry, Ne.symm h]
  | cons p t ih =>
    obtain ⟨k, vfs⟩ := p
    by_cases hk : k = k' <;> simp [lookupEntry, hk, ih]

/-- Appending a fresh entry makes its key's lookup return its row. -/
theorem lookupEntry_append_eq (es : List (String × List VarField))
    (u : String) (fs : List VarField) (h : lookupEntry es u = none) :
    lookupEntry (es ++ [(u, fs)]) u = some fs := by
  induction es with
  | nil => simp [lookupEntry]
  | cons p t ih =>
    obtain ⟨k, vfs⟩ := p
    by_cases hk : k = u
    · subst hk; simp [lookupEntry] at h
    · simp only [lookupEntry, if_neg hk] at h
      simp [lookupEntry, hk, ih h]

/-- Claim C10.  A successful `gcfgSet` changes only the storage resolved
for (section, subsection, variable): the resolved top-level field keeps
its name and tag, every other top-level field is untouched, and within the
resolved binding the frame property `bindingFrame` holds - for a struct
section only the matched variable's value may change; for a map section
only the entry under the subsection key (created from the zero template
when absent) may change, and within it only the matched variable's value. -/
theorem set_frame_effect (cfg : Config) (s u n v : String) (cfg' : Config)
    (h : gcfgSet cfg s u n v = .ok cfg') :
    ∃ i, fieldFoldTop cfg s = some i ∧ cfg'.length = cfg.length ∧
      (∀ j, j ≠ i → cfg'[j]? = cfg[j]?) ∧
      (∀ tf tf', cfg[i]? = some tf → cfg'[i]? = some tf' →
        tf'.fname = tf.fname ∧ tf'.tag = tf.tag ∧
        bindingFrame tf.binding tf'.binding u n) := by
  unfold gcfgSet at h
  split at h
  next => cases h
  next i hi =>
    split at h
    next => cases h
    next tf₀ htf =>
      refine ⟨i, hi, ?_⟩
      split at h
      next tmpl entries hbind =>
        split at h
        next e hsm => cases h
        next es₂ hsm =>
          cases h
          refine ⟨List.length_modify .., fun j hj => List.getElem?_modify_ne _ cfg hj.symm, ?_⟩
          intro tf tf' h1 h2
          rw [htf] at h1
          cases h1
          rw [List.getElem?_modify_eq, htf] at h2
          cases h2
          refine ⟨rfl, rfl, ?_⟩
          rw [hbind]
          refine ⟨rfl, es₂, rfl, ?_, ?_⟩
          · intro key hkey
            unfold setInMap at hsm
            split at hsm
            next fs hfs =>
              split at hsm
              next => cases hsm
              next fs' hsi =>
                cases hsm
                exact lookupEntry_updateEntry_ne _ _ _ _ hkey
            next hfs =>
              split at hsm
              next => cases hsm
              next fs' hsi =>
                cases hsm
                exact lookupEntry_append_ne _ _ _ _ hkey
          · unfold setInMap at hsm
            split at hsm
            next fs hfs =>
              split at hsm
              next => cases hsm
              next fs' hsi =>
                cases hsm
                refine ⟨fs', lookupEntry_updateEntry_eq _ _ fs fs' hfs, ?_⟩
                have hbase : ((lookupEntry (entries.getD []) u).getD (zeroFields tmpl)) = fs := by
                  rw [hfs]; rfl
                rw [hbase]
                exact setInFields_frame fs s u n v fs' hsi
            next hfs =>
              split at hsm
              next => cases hsm
              next fs' hsi =>
                cases hsm
                refine ⟨fs', lookupEntry_append_eq _ _ fs' hfs, ?_⟩
                have hbase : ((lookupEntry (entries.getD []) u).getD (zeroFields tmpl)) =
                    zeroFields tmpl := by
                  rw [hfs]; rfl
                rw [hbase]
                exact setInFields_frame (zeroFields tmpl) s u n v fs' hsi
      next fields hbind =>
        split at h
        next hsub => cases h
        next hsub =>
          split at h
          next e hsi => cases h
          next fs' hsi =>
            cases h
            refine ⟨List.length_modify .., fun j hj => List.getElem?_modify_ne _ cfg hj.symm, ?_⟩
            intro tf tf' h1 h2
            rw [htf] at h1
            cases h1
            rw [List.getElem?_modify_eq, htf] at h2
            cases h2
            refine ⟨rfl, rfl, ?_⟩
            rw [hbind]
            exact setInFields_frame fields s u n v fs' hsi
      next t₀ v₀ hbind => cases h

/-- Witness for claim C10's theorem: storing a string variable in the
single-field fixture touches only that field. -/
theorem set_frame_effect_witness :
    ∃ i, fieldFoldTop (cfgSingle Ty.tString (Val.vStr "old")) "s" = some i ∧
      (cfgSingle Ty.tString (Val.vStr "new")).length =
        (cfgSingle Ty.tString (Val.vStr "old")).length ∧
      (∀ j, j ≠ i →
        (cfgSingle Ty.tString (Val.vStr "new"))[j]? =
          (cfgSingle Ty.tString (Val.vStr "old"))[j]?) ∧
      (∀ tf tf', (cfgSingle Ty.tString (Val.vStr "old"))[i]? = some tf →
        (cfgSingle Ty.tString (Val.vStr "new"))[i]? = some tf' →
        tf'.fname = tf.fname ∧ tf'.tag = tf.tag ∧
        bindingFrame tf.binding tf'.binding "" "f") :=
  set_frame_effect (cfgSingle Ty.tString (Val.vStr "old")) "s" "" "f" "new"
    (cfgSingle Ty.tString (Val.vStr "new")) rfl
